import Mathlib

/-!
Shallow embedding of the guild-activity engine of `activity_tracker.py`
(class `ActivityTracker`), together with theorems settling claims about
its specification.

Modelling conventions:
* Python `datetime` instants are integer seconds (`Instant := Int`).
* Python `timedelta.seconds` is the sub-day remainder of a difference,
  i.e. `(b - a) % 86400` with a result in `[0, 86400)`, exactly as in
  CPython (`%` on `Int` is `Int.emod`, which agrees with Python's
  floor-mod for the positive modulus `86400`).
* Python dicts (insertion ordered) are association lists; updating an
  existing key keeps its position, a new key is appended at the end.
* Python exceptions are modelled by `Option`/`Except` results
  (`none` / `.error` marks the raising path).
* Python `sorted` is modelled by an insertion sort; only membership in
  the sorted lists matters for the claims below.
-/

namespace ActivityTrackerModel

abbrev Instant := Int

/-- One entry of the saved join/leave log (`logs` array in the source). -/
structure LogEntry where
  timestamp : Instant
  ign : String
  is_join : Bool
  is_guild_join : Bool
deriving Repr, DecidableEq

/-- The per-identity record kept in `self.activity`
(`{'last_join': ..., 'last_leave': ..., 'last_long_join': [...]}`). -/
structure SessionState where
  last_join : Option Instant
  last_leave : Option Instant
  long_session_starts : List Instant
deriving Repr, DecidableEq

/-- The value a fresh identity is given on its first log entry. -/
def initialSession : SessionState := ⟨none, none, []⟩

/-! ### Python dict / set model -/

/-- Dict lookup (`d[k]` / `d.get(k)`), first matching key. -/
def dictGet {α : Type} : List (String × α) → String → Option α
  | [], _ => none
  | (k', v) :: rest, k => if k' = k then some v else dictGet rest k

/-- Dict update `d[k] = v`: replaces in place, or appends a new key
(Python dicts preserve insertion order). -/
def dictSet {α : Type} : List (String × α) → String → α → List (String × α)
  | [], k, v => [(k, v)]
  | (k', v') :: rest, k, v =>
      if k' = k then (k, v) :: rest else (k', v') :: dictSet rest k v

/-- `d.keys()` in insertion order. -/
def dictKeys {α : Type} (d : List (String × α)) : List String := d.map Prod.fst

/-- Python `set.add`: membership is what matters; we append new
elements so the model is executable and deterministic. -/
def pySetAdd (s : List String) (x : String) : List String :=
  if x ∈ s then s else s ++ [x]

/-! ### Configuration constants of `ActivityTracker` (in minutes,
matching the source) -/

def MINS_FOR_LONG_JOIN : Int := 30
def MINS_FOR_RECONNECT_TIMEOUT : Int := 60 * 2
def MINS_FOR_JOIN_LOG_TIMEOUT : Int := 60 * 24
def MINS_FOR_ACTIVITY_RANGE : Int := 60 * 24 * 60
def NUM_LONG_JOINS_FOR_ACTIVITY : Nat := 2
def MINS_FOR_RAW_PROMOTION_ACTIVITY_RANGE : Int := 60 * 24 * 7
def NUM_LONG_JOINS_FOR_RAW_PROMOTION : Nat := 1
def MINS_FOR_RAW_JOIN_DATE_PROMOTION_RANGE : Int := 60 * 24 * 30
def MINS_FOR_BOILED_PROMOTION_ACTIVITY_RANGE : Int := 60 * 24 * 7
def NUM_LONG_JOINS_FOR_BOILED_PROMOTION : Nat := 1
def MINS_FOR_BOILED_JOIN_DATE_PROMOTION_RANGE : Int := 60 * 24 * 91
def SCRAMBLED_SB_LEVEL : Int := 240

/-- `is_time_within_mins(start, end, mins)`:
`diff = end - start; return diff.seconds < 60*mins`.
CPython's `timedelta.seconds` is the sub-day remainder of the
difference, so this compares only `(finish - start) mod 86400`. -/
def is_time_within_mins (start finish mins : Instant) : Bool :=
  (finish - start) % 86400 < 60 * mins

/-! ### Session Reconstructor: one step of the `for log in logs` loop -/

/-- State accumulated by the log-parsing loop of `calculate_activity`:
`self.activity`, `self.known_guild_join_dates`, `igns_in_grace_period`. -/
structure RunState where
  activity : List (String × SessionState)
  known_guild_join_dates : List (String × Instant)
  igns_in_grace_period : List String
deriving Repr, DecidableEq

/-- A run state with an empty grace set and no known guild-join dates,
as (re)initialized at the top of every `calculate_activity` call; the
`activity` dict is whatever `self.activity` currently holds. -/
def startState (activity0 : List (String × SessionState)) : RunState :=
  ⟨activity0, [], []⟩

/-- Lines 324-325: `if ign not in self.activity: self.activity[ign] = {...}`. -/
def ensureEntry (st : RunState) (ign : String) : RunState :=
  if (dictGet st.activity ign).isSome then st
  else { st with activity := dictSet st.activity ign initialSession }

/-- Lines 334-336: the condition
`last_leave is None or not within(last_leave, t, RECONNECT_TIMEOUT)
 or within(last_join, t, JOIN_LOG_TIMEOUT)` with Python's short-circuit
`or`; evaluating the third test with `last_join = None` raises
`TypeError` in the source, modelled by `none`. -/
def joinUpdateCond (s : SessionState) (timestamp : Instant) : Option Bool :=
  match s.last_leave with
  | none => some true
  | some ll =>
    if ¬ is_time_within_mins ll timestamp MINS_FOR_RECONNECT_TIMEOUT then
      some true
    else
      match s.last_join with
      | none => none
      | some lj => some (is_time_within_mins lj timestamp MINS_FOR_JOIN_LOG_TIMEOUT)

/-- Lines 344-354: the leave branch of the loop body, acting on one
identity's session record. -/
def leaveUpdate (furthest_log_time : Instant) (s : SessionState)
    (timestamp : Instant) : SessionState :=
  let s := { s with last_leave := some timestamp }
  let lj := (s.last_join).getD furthest_log_time
  let s := if s.last_join = none then { s with last_join := some furthest_log_time } else s
  if ¬ is_time_within_mins lj timestamp MINS_FOR_LONG_JOIN then
    if s.long_session_starts = [] ∨ s.long_session_starts.getLast? ≠ some lj then
      { s with long_session_starts := s.long_session_starts ++ [lj] }
    else s
  else s

/-- One iteration of the `for log in logs` loop of `calculate_activity`
(lines 322-354 of the source).  Returns `none` on the path where the
source would raise. -/
def stepEntry (furthest_log_time activity_grace_period_end : Instant)
    (st : RunState) (log : LogEntry) : Option RunState :=
  let st1 := ensureEntry st log.ign
  let s := (dictGet st1.activity log.ign).getD initialSession
  if log.is_join then
    match joinUpdateCond s log.timestamp with
    | none => none
    | some cond =>
      let s' := if cond then { s with last_join := some log.timestamp } else s
      let st2 := { st1 with activity := dictSet st1.activity log.ign s' }
      if log.is_guild_join then
        let st3 := { st2 with
          known_guild_join_dates := dictSet st2.known_guild_join_dates log.ign log.timestamp }
        if activity_grace_period_end ≤ log.timestamp then
          some { st3 with igns_in_grace_period := pySetAdd st3.igns_in_grace_period log.ign }
        else
          some st3
      else
        some st2
  else
    some { st1 with
      activity := dictSet st1.activity log.ign (leaveUpdate furthest_log_time s log.timestamp) }

/-- The whole `for log in logs` loop. -/
def processLogs (furthest_log_time activity_grace_period_end : Instant) :
    RunState → List LogEntry → Option RunState
  | st, [] => some st
  | st, log :: rest =>
    match stepEntry furthest_log_time activity_grace_period_end st log with
    | none => none
    | some st' => processLogs furthest_log_time activity_grace_period_end st' rest

/-! ### Sorting (Python `sorted`) -/

def pyInsert (le : String → String → Bool) (x : String) : List String → List String
  | [] => [x]
  | y :: ys => if le x y then x :: y :: ys else y :: pyInsert le x ys

/-- Model of Python `sorted(xs, key=..., reverse=...)` via the
comparison it induces; the engine only depends on membership of the
result. -/
def pySorted (le : String → String → Bool) : List String → List String
  | [] => []
  | x :: xs => pyInsert le x (pySorted le xs)

/-- Sort key used throughout: `key=lambda ign: activity[ign]['last_join']`,
descending.  For every identity that is actually sorted by the source the
`last_join` field is a real timestamp, so the defaults are never hit there. -/
def lastJoinOf (activity : List (String × SessionState)) (ign : String) : Instant :=
  (((dictGet activity ign).getD initialSession).last_join).getD 0

def sortByLastJoinDesc (activity : List (String × SessionState))
    (igns : List String) : List String :=
  pySorted (fun a b => decide (lastJoinOf activity b ≤ lastJoinOf activity a)) igns

def sortAlpha (igns : List String) : List String :=
  pySorted (fun a b => decide (a ≤ b)) igns

/-! ### Classifier and Promotion Evaluator -/

/-- `get_active_igns`: identities with at least
`NUM_LONG_JOINS_FOR_ACTIVITY` recorded long-session starts. -/
def get_active_igns (activity : List (String × SessionState)) : List String :=
  (dictKeys activity).filter (fun ign =>
    decide (NUM_LONG_JOINS_FOR_ACTIVITY ≤
      ((dictGet activity ign).getD initialSession).long_session_starts.length))

/-- Python `l[-n:]` for `n ≥ 1`: the last `min n l.length` elements. -/
def lastN {α : Type} (n : Nat) (l : List α) : List α := l.drop (l.length - n)

/-- The flattened roster
`[ign for igns in self.guild_list_dict.values() for ign in igns]`. -/
def guildListOf : List (String × List String) → List String
  | [] => []
  | (_, igns) :: rest => igns ++ guildListOf rest

/-- `get_raw_to_boiled_promotion_igns`; `none` models the `KeyError`
raised when the roster has no "Raw Egg" section. -/
def get_raw_to_boiled_promotion_igns
    (guild_list_dict : List (String × List String))
    (activity : List (String × SessionState))
    (known_guild_join_dates : List (String × Instant))
    (active_igns : List String)
    (nearest_log_time today : Instant) : Option (List String) :=
  match dictGet guild_list_dict "Raw Egg" with
  | none => none
  | some raw_igns =>
    let activity_range_start :=
      nearest_log_time - 60 * MINS_FOR_RAW_PROMOTION_ACTIVITY_RANGE
    let join_date_end := today - 60 * MINS_FOR_RAW_JOIN_DATE_PROMOTION_RANGE
    some (raw_igns.filter (fun ign =>
      decide (ign ∈ active_igns)
      && ((lastN NUM_LONG_JOINS_FOR_RAW_PROMOTION
            ((dictGet activity ign).getD initialSession).long_session_starts).countP
            (fun t => decide (t < activity_range_start)) == 0)
      && (match dictGet known_guild_join_dates ign with
          | none => true
          | some d => decide (d ≤ join_date_end))))

/-- `get_boiled_to_scrambled_promotion_igns`; `none` models the
`KeyError` raised when the roster has no "Hard Boiled Egg" section. -/
def get_boiled_to_scrambled_promotion_igns
    (guild_list_dict : List (String × List String))
    (activity : List (String × SessionState))
    (known_guild_join_dates : List (String × Instant))
    (sb_level_dict : List (String × Int))
    (active_igns : List String)
    (nearest_log_time today : Instant) : Option (List String) :=
  match dictGet guild_list_dict "Hard Boiled Egg" with
  | none => none
  | some boiled_igns =>
    let activity_range_start :=
      nearest_log_time - 60 * MINS_FOR_BOILED_PROMOTION_ACTIVITY_RANGE
    let join_date_end := today - 60 * MINS_FOR_BOILED_JOIN_DATE_PROMOTION_RANGE
    some (boiled_igns.filter (fun ign =>
      decide (ign ∈ active_igns)
      && ((lastN NUM_LONG_JOINS_FOR_BOILED_PROMOTION
            ((dictGet activity ign).getD initialSession).long_session_starts).countP
            (fun t => decide (t < activity_range_start)) == 0)
      && (match dictGet known_guild_join_dates ign with
          | none => true
          | some d => decide (d ≤ join_date_end))
      && decide (SCRAMBLED_SB_LEVEL ≤ (dictGet sb_level_dict ign).getD (-1))))

/-- Everything `calculate_activity` computes and reports after the log
loop (the lists it stores on `self` plus the clear / unknown promotion
split computed by `print_activity_log`). -/
structure CalcOutput where
  active_igns : List String
  grace_period_igns : List String
  inactive_igns : List String
  raw_to_boiled_promotion_igns : List String
  boiled_to_scrambled_promotion_igns : List String
  raw_unknown_join_igns : List String
  raw_clear_igns : List String
  boiled_unknown_join_igns : List String
  boiled_clear_igns : List String
deriving Repr, DecidableEq

/-- Line 357: `self.active_igns = sorted(self.get_active_igns(), ...)`. -/
def activeSortedOf (st : RunState) : List String :=
  sortByLastJoinDesc st.activity (get_active_igns st.activity)

/-- Line 365: the active list after intersection with the roster. -/
def activeListOf (guild_list_dict : List (String × List String)) (st : RunState) :
    List String :=
  (activeSortedOf st).filter (fun ign => decide (ign ∈ guildListOf guild_list_dict))

/-- Lines 358-361: identities with history but not in the (pre-filter)
active list, then roster members never seen in the log. -/
def inactiveSortedOf (guild_list_dict : List (String × List String)) (st : RunState) :
    List String :=
  sortByLastJoinDesc st.activity
    ((dictKeys st.activity).filter (fun ign => decide (ign ∉ activeSortedOf st)))
  ++ sortAlpha ((guildListOf guild_list_dict).filter
      (fun ign => decide (ign ∉ dictKeys st.activity)))

/-- Lines 362, 367, 370: the grace list after roster intersection and
removal of active identities. -/
def graceListOf (guild_list_dict : List (String × List String)) (st : RunState) :
    List String :=
  ((sortByLastJoinDesc st.activity st.igns_in_grace_period).filter
      (fun ign => decide (ign ∈ guildListOf guild_list_dict))).filter
    (fun ign => decide (ign ∉ activeListOf guild_list_dict st))

/-- Lines 366, 371: the inactive list after roster intersection and
removal of grace-period identities. -/
def inactiveListOf (guild_list_dict : List (String × List String)) (st : RunState) :
    List String :=
  ((inactiveSortedOf guild_list_dict st).filter
      (fun ign => decide (ign ∈ guildListOf guild_list_dict))).filter
    (fun ign => decide (ign ∉ graceListOf guild_list_dict st))

/-- Lines 458 / 468: `[ign for ign in promo if ign not in self.known_guild_join_dates]`. -/
def unknownJoinOf (st : RunState) (promo : List String) : List String :=
  promo.filter (fun ign => (dictGet st.known_guild_join_dates ign).isNone)

/-- Lines 461 / 471: the printed clear list
`[ign for ign in promo if ign not in unknown_join_igns]`. -/
def clearOf (promo unknown : List String) : List String :=
  promo.filter (fun ign => decide (ign ∉ unknown))

/-- Lines 356-378 of the source: tier assembly (sorting, roster
filtering, overlap removal), the two promotion lists, and the
clear/unknown split printed by `print_activity_log`. -/
def assembleOutput (guild_list_dict : List (String × List String))
    (sb_level_dict : List (String × Int))
    (nearest_log_time today : Instant) (st : RunState) :
    Except String CalcOutput :=
  match get_raw_to_boiled_promotion_igns guild_list_dict st.activity
      st.known_guild_join_dates (activeListOf guild_list_dict st) nearest_log_time today with
  | none => .error "KeyError: Raw Egg"
  | some rawPromotion =>
    match get_boiled_to_scrambled_promotion_igns guild_list_dict st.activity
        st.known_guild_join_dates sb_level_dict (activeListOf guild_list_dict st)
        nearest_log_time today with
    | none => .error "KeyError: Hard Boiled Egg"
    | some boiledPromotion =>
      .ok { active_igns := activeListOf guild_list_dict st
            grace_period_igns := graceListOf guild_list_dict st
            inactive_igns := inactiveListOf guild_list_dict st
            raw_to_boiled_promotion_igns := rawPromotion
            boiled_to_scrambled_promotion_igns := boiledPromotion
            raw_unknown_join_igns := unknownJoinOf st rawPromotion
            raw_clear_igns := clearOf rawPromotion (unknownJoinOf st rawPromotion)
            boiled_unknown_join_igns := unknownJoinOf st boiledPromotion
            boiled_clear_igns := clearOf boiledPromotion (unknownJoinOf st boiledPromotion) }

def rosterMissingError : String := "FileNotFoundError: data/guild_list.txt"
def sbLevelMissingError : String := "FileNotFoundError: data/sb_level_list.txt"
def emptyLogError : String := "IndexError: list index out of range"
def joinTypeError : String := "TypeError: unsupported operand for -: datetime and NoneType"

/-- The whole of `ActivityTracker.calculate_activity`.

Arguments mirror the data the source call reads: the decoded log array,
the roster file (`None` = file absent, which raises in
`load_guild_list`), the level file, the wall-clock `datetime.now()`
used by the promotion rules, and the current contents of
`self.activity` (which `calculate_activity` does NOT reset).  The
result pairs the computed report with the final loop state (whose
`activity` field is the `self.activity` left behind for a later call). -/
def calculate_activity (logs : List LogEntry)
    (guild_list_file : Option (List (String × List String)))
    (sb_level_file : Option (List (String × Int)))
    (today : Instant)
    (activity0 : List (String × SessionState)) :
    Except String (CalcOutput × RunState) :=
  match guild_list_file with
  | none => .error rosterMissingError
  | some guild_list_dict =>
    match sb_level_file with
    | none => .error sbLevelMissingError
    | some sb_level_dict =>
      match logs with
      | [] => .error emptyLogError
      | first :: _ =>
        let furthest_log_time := first.timestamp
        let nearest_log_time := ((logs.getLast?).getD first).timestamp
        let activity_grace_period_end :=
          furthest_log_time - 60 * MINS_FOR_ACTIVITY_RANGE
        match processLogs furthest_log_time activity_grace_period_end
            (startState activity0) logs with
        | none => .error joinTypeError
        | some st =>
          match assembleOutput guild_list_dict sb_level_dict
              nearest_log_time today st with
          | .error msg => .error msg
          | .ok out => .ok (out, st)

/-! ### Basic lemmas about the dict / set / sort models -/

theorem dictGet_dictSet_self {α : Type} (d : List (String × α)) (k : String) (v : α) :
    dictGet (dictSet d k v) k = some v := by
  induction d with
  | nil => simp [dictGet, dictSet]
  | cons hd tl ih =>
    obtain ⟨k', v'⟩ := hd
    by_cases h : k' = k
    · subst h; simp [dictGet, dictSet]
    · simp [dictGet, dictSet, h, ih]

theorem dictGet_dictSet_ne {α : Type} (d : List (String × α)) (k k' : String) (v : α)
    (h : k' ≠ k) : dictGet (dictSet d k v) k' = dictGet d k' := by
  induction d with
  | nil => simp [dictGet, dictSet, Ne.symm h]
  | cons hd tl ih =>
    obtain ⟨a, b⟩ := hd
    by_cases ha : a = k
    · subst ha
      simp [dictGet, dictSet, Ne.symm h]
    · simp [dictGet, dictSet, ha, ih]

theorem mem_dictKeys_iff {α : Type} (d : List (String × α)) (k : String) :
    k ∈ dictKeys d ↔ (dictGet d k).isSome := by
  induction d with
  | nil => simp [dictKeys, dictGet]
  | cons hd tl ih =>
    obtain ⟨a, b⟩ := hd
    rw [show dictKeys ((a, b) :: tl) = a :: dictKeys tl from rfl, List.mem_cons, ih]
    by_cases ha : a = k
    · subst ha; simp [dictGet]
    · simp [dictGet, ha, Ne.symm ha]

theorem mem_pySetAdd (s : List String) (x y : String) :
    y ∈ pySetAdd s x ↔ (y ∈ s ∨ y = x) := by
  by_cases h : x ∈ s
  · simp only [pySetAdd, if_pos h]
    constructor
    · exact Or.inl
    · rintro (hy | rfl)
      · exact hy
      · exact h
  · simp [pySetAdd, h]

theorem mem_pyInsert (le : String → String → Bool) (x y : String) (l : List String) :
    y ∈ pyInsert le x l ↔ (y = x ∨ y ∈ l) := by
  induction l with
  | nil => simp [pyInsert]
  | cons a tl ih =>
    by_cases hle : le x a
    · simp [pyInsert, hle]
    · simp [pyInsert, hle, ih]
      tauto

theorem mem_pySorted (le : String → String → Bool) (y : String) (l : List String) :
    y ∈ pySorted le l ↔ y ∈ l := by
  induction l with
  | nil => simp [pySorted]
  | cons a tl ih => simp [pySorted, mem_pyInsert, ih]

theorem mem_sortByLastJoinDesc (activity : List (String × SessionState))
    (igns : List String) (y : String) :
    y ∈ sortByLastJoinDesc activity igns ↔ y ∈ igns := by
  simp [sortByLastJoinDesc, mem_pySorted]

theorem mem_sortAlpha (igns : List String) (y : String) :
    y ∈ sortAlpha igns ↔ y ∈ igns := by
  simp [sortAlpha, mem_pySorted]

theorem mem_get_active_igns (activity : List (String × SessionState)) (i : String) :
    i ∈ get_active_igns activity ↔
      (i ∈ dictKeys activity ∧
       NUM_LONG_JOINS_FOR_ACTIVITY ≤
         ((dictGet activity i).getD initialSession).long_session_starts.length) := by
  simp [get_active_igns, List.mem_filter]

/-! ### Lemmas about one step of the log loop -/

theorem ensureEntry_grace (st : RunState) (i : String) :
    (ensureEntry st i).igns_in_grace_period = st.igns_in_grace_period := by
  unfold ensureEntry; split <;> rfl

theorem ensureEntry_known (st : RunState) (i : String) :
    (ensureEntry st i).known_guild_join_dates = st.known_guild_join_dates := by
  unfold ensureEntry; split <;> rfl

theorem dictGet_ensureEntry_self (st : RunState) (i : String) :
    (dictGet (ensureEntry st i).activity i).getD initialSession =
      (dictGet st.activity i).getD initialSession := by
  unfold ensureEntry
  split
  · rfl
  · next h =>
    cases hg : dictGet st.activity i with
    | none => simp [dictGet_dictSet_self]
    | some v => exact absurd (by simp [hg]) h

theorem dictGet_ensureEntry_ne (st : RunState) (i j : String) (h : j ≠ i) :
    dictGet (ensureEntry st i).activity j = dictGet st.activity j := by
  unfold ensureEntry
  split
  · rfl
  · simp [dictGet_dictSet_ne _ _ _ _ h]

theorem stepEntry_grace_eq {f g : Instant} {st : RunState} {log : LogEntry} {st' : RunState}
    (h : stepEntry f g st log = some st') :
    st'.igns_in_grace_period =
      if log.is_join = true ∧ log.is_guild_join = true ∧ g ≤ log.timestamp then
        pySetAdd st.igns_in_grace_period log.ign
      else st.igns_in_grace_period := by
  unfold stepEntry at h
  cases hj : log.is_join with
  | false =>
    simp [hj] at h
    subst h
    simp [hj, ensureEntry_grace]
  | true =>
    simp only [hj, if_true, if_pos] at h
    cases hc : joinUpdateCond ((dictGet (ensureEntry st log.ign).activity log.ign).getD initialSession) log.timestamp with
    | none => rw [hc] at h; exact absurd h (by simp)
    | some cond =>
      rw [hc] at h
      cases hgj : log.is_guild_join with
      | false =>
        simp [hgj] at h
        subst h
        simp [hj, hgj, ensureEntry_grace]
      | true =>
        by_cases hg : g ≤ log.timestamp
        · simp [hgj, hg] at h
          subst h
          simp [hj, hgj, hg, ensureEntry_grace]
        · simp [hgj, hg] at h
          subst h
          simp [hj, hgj, hg, ensureEntry_grace]

theorem stepEntry_known_eq {f g : Instant} {st : RunState} {log : LogEntry} {st' : RunState}
    (hj : log.is_join = true) (hgj : log.is_guild_join = true)
    (h : stepEntry f g st log = some st') :
    st'.known_guild_join_dates = dictSet st.known_guild_join_dates log.ign log.timestamp := by
  unfold stepEntry at h
  simp only [hj, if_true, if_pos] at h
  cases hc : joinUpdateCond ((dictGet (ensureEntry st log.ign).activity log.ign).getD initialSession) log.timestamp with
  | none => rw [hc] at h; exact absurd h (by simp)
  | some cond =>
    rw [hc] at h
    by_cases hg : g ≤ log.timestamp
    · simp [hgj, hg] at h
      subst h
      simp [ensureEntry_known]
    · simp [hgj, hg] at h
      subst h
      simp [ensureEntry_known]

theorem stepEntry_get_ne {f g : Instant} {st : RunState} {log : LogEntry} {st' : RunState}
    (h : stepEntry f g st log = some st') (j : String) (hne : j ≠ log.ign) :
    dictGet st'.activity j = dictGet st.activity j := by
  unfold stepEntry at h
  cases hj : log.is_join with
  | false =>
    simp [hj] at h
    subst h
    simp [dictGet_dictSet_ne _ _ _ _ hne, dictGet_ensureEntry_ne st _ _ hne]
  | true =>
    simp only [hj, if_true, if_pos] at h
    cases hc : joinUpdateCond ((dictGet (ensureEntry st log.ign).activity log.ign).getD initialSession) log.timestamp with
    | none => rw [hc] at h; exact absurd h (by simp)
    | some cond =>
      rw [hc] at h
      cases hgj : log.is_guild_join with
      | false =>
        simp [hgj] at h
        subst h
        simp [dictGet_dictSet_ne _ _ _ _ hne, dictGet_ensureEntry_ne st _ _ hne]
      | true =>
        by_cases hg : g ≤ log.timestamp <;>
          · simp [hgj, hg] at h
            subst h
            simp [dictGet_dictSet_ne _ _ _ _ hne, dictGet_ensureEntry_ne st _ _ hne]

theorem stepEntry_get_self {f g : Instant} {st : RunState} {log : LogEntry} {st' : RunState}
    (h : stepEntry f g st log = some st') :
    ∃ s', dictGet st'.activity log.ign = some s' ∧
      ((log.is_join = true ∧
         (s' = (dictGet st.activity log.ign).getD initialSession ∨
          s' = { (dictGet st.activity log.ign).getD initialSession with
                   last_join := some log.timestamp })) ∨
       (log.is_join = false ∧
         s' = leaveUpdate f ((dictGet st.activity log.ign).getD initialSession) log.timestamp)) := by
  have hbase := dictGet_ensureEntry_self st log.ign
  unfold stepEntry at h
  cases hj : log.is_join with
  | false =>
    simp [hj] at h
    subst h
    refine ⟨_, ?_, Or.inr ⟨rfl, rfl⟩⟩
    simp only [dictGet_dictSet_self, hbase]
  | true =>
    simp only [hj, if_true, if_pos] at h
    cases hc : joinUpdateCond ((dictGet (ensureEntry st log.ign).activity log.ign).getD initialSession) log.timestamp with
    | none => rw [hc] at h; exact absurd h (by simp)
    | some cond =>
      rw [hc] at h
      cases hgj : log.is_guild_join with
      | false =>
        simp [hgj] at h
        subst h
        cases cond with
        | false =>
          refine ⟨_, ?_, Or.inl ⟨rfl, Or.inl rfl⟩⟩
          simp only [dictGet_dictSet_self, if_false, Bool.false_eq_true, hbase]
        | true =>
          refine ⟨_, ?_, Or.inl ⟨rfl, Or.inr rfl⟩⟩
          simp only [dictGet_dictSet_self, if_true, hbase]
      | true =>
        by_cases hg : g ≤ log.timestamp <;>
        · simp [hgj, hg] at h
          subst h
          cases cond with
          | false =>
            refine ⟨_, ?_, Or.inl ⟨rfl, Or.inl rfl⟩⟩
            simp only [dictGet_dictSet_self, if_false, Bool.false_eq_true, hbase]
          | true =>
            refine ⟨_, ?_, Or.inl ⟨rfl, Or.inr rfl⟩⟩
            simp only [dictGet_dictSet_self, if_true, hbase]

theorem stepEntry_isSome {f g : Instant} {st : RunState} {log : LogEntry} {st' : RunState}
    (h : stepEntry f g st log = some st') (j : String) :
    (dictGet st'.activity j).isSome ↔ ((dictGet st.activity j).isSome ∨ j = log.ign) := by
  by_cases hij : j = log.ign
  · subst hij
    obtain ⟨s', hs', -⟩ := stepEntry_get_self h
    simp [hs']
  · rw [stepEntry_get_ne h j hij]
    simp [hij]

/-! ### Whole-run lemmas about the log loop -/

theorem processLogs_isSome {f g : Instant} :
    ∀ {logs : List LogEntry} {st st' : RunState},
      processLogs f g st logs = some st' →
      ∀ j, ((dictGet st'.activity j).isSome ↔
            ((dictGet st.activity j).isSome ∨ ∃ e ∈ logs, e.ign = j)) := by
  intro logs
  induction logs with
  | nil =>
    intro st st' h j
    simp only [processLogs, Option.some.injEq] at h
    subst h
    simp
  | cons e rest ih =>
    intro st st' h j
    simp only [processLogs] at h
    cases hse : stepEntry f g st e with
    | none => rw [hse] at h; exact absurd h (by simp)
    | some st1 =>
      rw [hse] at h
      rw [ih h j, stepEntry_isSome hse j]
      simp only [List.mem_cons, exists_eq_or_imp]
      constructor
      · rintro ((hs | rfl) | hrest)
        · exact Or.inl hs
        · exact Or.inr (Or.inl rfl)
        · exact Or.inr (Or.inr hrest)
      · rintro (hs | rfl | hrest)
        · exact Or.inl (Or.inl hs)
        · exact Or.inl (Or.inr rfl)
        · exact Or.inr hrest

theorem processLogs_grace_mem {f g : Instant} :
    ∀ {logs : List LogEntry} {st st' : RunState},
      processLogs f g st logs = some st' →
      ∀ j, (j ∈ st'.igns_in_grace_period ↔
            (j ∈ st.igns_in_grace_period ∨
             ∃ e ∈ logs, e.ign = j ∧ e.is_join = true ∧ e.is_guild_join = true ∧
               g ≤ e.timestamp)) := by
  intro logs
  induction logs with
  | nil =>
    intro st st' h j
    simp only [processLogs, Option.some.injEq] at h
    subst h
    simp
  | cons e rest ih =>
    intro st st' h j
    simp only [processLogs] at h
    cases hse : stepEntry f g st e with
    | none => rw [hse] at h; exact absurd h (by simp)
    | some st1 =>
      rw [hse] at h
      rw [ih h j]
      have hg := stepEntry_grace_eq hse
      simp only [List.mem_cons, exists_eq_or_imp]
      by_cases hcond : e.is_join = true ∧ e.is_guild_join = true ∧ g ≤ e.timestamp
      · rw [if_pos hcond] at hg
        rw [hg, mem_pySetAdd]
        obtain ⟨h1, h2, h3⟩ := hcond
        simp only [h1, h2, h3]
        constructor
        · rintro ((hs | rfl) | hrest)
          · exact Or.inl hs
          · exact Or.inr (Or.inl (by simp))
          · exact Or.inr (Or.inr hrest)
        · rintro (hs | hcase | hrest)
          · exact Or.inl (Or.inl hs)
          · obtain ⟨rfl, -⟩ := hcase
            exact Or.inl (Or.inr rfl)
          · exact Or.inr hrest
      · rw [if_neg hcond] at hg
        rw [hg]
        constructor
        · rintro (hs | hrest)
          · exact Or.inl hs
          · exact Or.inr (Or.inr hrest)
        · rintro (hs | hcase | hrest)
          · exact Or.inl hs
          · exact absurd ⟨hcase.2.1, hcase.2.2.1, hcase.2.2.2⟩ hcond
          · exact Or.inr hrest

/-! ### The strictly-increasing-history invariant -/

/-- Invariant carried through the log loop for one identity's record:
its recorded long-session starts grow strictly, every recorded start is
at most the current `last_join`, and `last_join` (when set) is a lower
bound for every still-unprocessed timestamp in `bound`. -/
def SessionInv (bound : List LogEntry) (s : SessionState) : Prop :=
  s.long_session_starts.Chain' (· < ·) ∧
  (∀ x ∈ s.long_session_starts, ∀ v, s.last_join = some v → x ≤ v) ∧
  (s.last_join = none → s.long_session_starts = []) ∧
  (∀ v, s.last_join = some v → ∀ e ∈ bound, v ≤ e.timestamp)

theorem sessionInv_initial (bound : List LogEntry) : SessionInv bound initialSession := by
  refine ⟨by simp [initialSession], ?_, ?_, ?_⟩ <;> simp [initialSession]

theorem sessionInv_mono_cons {bound : List LogEntry} {e : LogEntry} {s : SessionState}
    (h : SessionInv (e :: bound) s) : SessionInv bound s := by
  obtain ⟨h1, h2, h3, h4⟩ := h
  exact ⟨h1, h2, h3, fun v hv x hx => h4 v hv x (List.mem_cons_of_mem _ hx)⟩

theorem sessionInv_join {bound : List LogEntry} {e : LogEntry} {s : SessionState}
    (h : SessionInv (e :: bound) s)
    (hpw : ∀ x ∈ bound, e.timestamp ≤ x.timestamp) :
    SessionInv bound { s with last_join := some e.timestamp } := by
  obtain ⟨h1, h2, h3, h4⟩ := h
  refine ⟨h1, ?_, by simp, ?_⟩
  · intro x hx v hv
    simp only [Option.some.injEq] at hv
    subst hv
    cases hlj : s.last_join with
    | none => rw [h3 hlj] at hx; cases hx
    | some w =>
      exact le_trans (h2 x hx w hlj) (h4 w hlj e (List.mem_cons_self _ _))
  · intro v hv x hx
    simp only [Option.some.injEq] at hv
    subst hv
    exact hpw x hx

theorem getLastQ_mem {α : Type} {l : List α} {x : α} (hx : l.getLast? = some x) :
    x ∈ l := by
  obtain ⟨h, heq⟩ := List.mem_getLast?_eq_getLast (Option.mem_def.mpr hx)
  rw [heq]
  exact List.getLast_mem h

theorem leaveUpdate_last_join (f : Instant) (s : SessionState) (t : Instant) :
    (leaveUpdate f s t).last_join = some (s.last_join.getD f) := by
  cases hn : s.last_join <;> simp [leaveUpdate, hn] <;> split_ifs <;> rfl

theorem leaveUpdate_lsj (f : Instant) (s : SessionState) (t : Instant) :
    (leaveUpdate f s t).long_session_starts = s.long_session_starts ∨
    ((leaveUpdate f s t).long_session_starts
        = s.long_session_starts ++ [s.last_join.getD f] ∧
      s.long_session_starts.getLast? ≠ some (s.last_join.getD f)) := by
  cases hn : s.last_join with
  | none =>
    simp only [hn, Option.getD_none]
    by_cases hw : is_time_within_mins f t MINS_FOR_LONG_JOIN = true
    · left; simp [leaveUpdate, hn, hw]
    · by_cases hd : s.long_session_starts.getLast? = some f
      · have hne : s.long_session_starts ≠ [] := by
          intro hc; rw [hc] at hd; exact Option.noConfusion hd
        left; simp [leaveUpdate, hn, hw, hd, hne]
      · right
        refine ⟨?_, hd⟩
        simp [leaveUpdate, hn, hw, hd]
  | some v =>
    simp only [hn, Option.getD_some]
    by_cases hw : is_time_within_mins v t MINS_FOR_LONG_JOIN = true
    · left; simp [leaveUpdate, hn, hw]
    · by_cases hd : s.long_session_starts.getLast? = some v
      · have hne : s.long_session_starts ≠ [] := by
          intro hc; rw [hc] at hd; exact Option.noConfusion hd
        left; simp [leaveUpdate, hn, hw, hd, hne]
      · right
        refine ⟨?_, hd⟩
        simp [leaveUpdate, hn, hw, hd]

theorem sessionInv_leave {bound : List LogEntry} {e : LogEntry} {f : Instant}
    {s : SessionState}
    (h : SessionInv (e :: bound) s)
    (hfb : ∀ x ∈ bound, f ≤ x.timestamp) :
    SessionInv bound (leaveUpdate f s e.timestamp) := by
  obtain ⟨h1, h2, h3, h4⟩ := h
  have hlj := leaveUpdate_last_join f s e.timestamp
  have hbound : ∀ x ∈ bound, s.last_join.getD f ≤ x.timestamp := by
    cases hn : s.last_join with
    | none => simpa using hfb
    | some v =>
      intro x hx
      simpa using h4 v hn x (List.mem_cons_of_mem _ hx)
  have hlsjle : ∀ x ∈ s.long_session_starts, x ≤ s.last_join.getD f := by
    cases hn : s.last_join with
    | none => rw [h3 hn]; simp
    | some v =>
      intro x hx
      simpa using h2 x hx v hn
  rcases leaveUpdate_lsj f s e.timestamp with hL | ⟨hL, hne⟩
  · refine ⟨hL ▸ h1, ?_, ?_, ?_⟩
    · intro x hx v hv
      rw [hL] at hx
      rw [hlj] at hv
      injection hv with hv
      subst hv
      exact hlsjle x hx
    · intro hcontra
      rw [hlj] at hcontra
      cases hcontra
    · intro v hv x hx
      rw [hlj] at hv
      injection hv with hv
      subst hv
      exact hbound x hx
  · refine ⟨?_, ?_, ?_, ?_⟩
    · rw [hL]
      rw [List.chain'_append]
      refine ⟨h1, by simp, ?_⟩
      intro x hx y hy
      simp only [List.head?_cons, Option.mem_def, Option.some.injEq] at hy
      subst hy
      have hxmem : x ∈ s.long_session_starts := getLastQ_mem (Option.mem_def.mp hx)
      have hxle : x ≤ s.last_join.getD f := hlsjle x hxmem
      have hxne : x ≠ s.last_join.getD f := by
        intro hcontra
        exact hne (by rw [← hcontra]; exact hx)
      exact lt_of_le_of_ne hxle hxne
    · intro x hx v hv
      rw [hL] at hx
      rw [hlj] at hv
      injection hv with hv
      subst hv
      rcases List.mem_append.mp hx with hx | hx
      · exact hlsjle x hx
      · simp only [List.mem_singleton] at hx
        subst hx
        exact le_refl _
    · intro hcontra
      rw [hlj] at hcontra
      cases hcontra
    · intro v hv x hx
      rw [hlj] at hv
      injection hv with hv
      subst hv
      exact hbound x hx

/-- The state-wide invariant: every recorded identity satisfies
`SessionInv` relative to the not-yet-processed suffix of the log. -/
def StateInv (bound : List LogEntry) (st : RunState) : Prop :=
  ∀ i s, dictGet st.activity i = some s → SessionInv bound s

theorem stateInv_step {f g : Instant} {st : RunState} {e : LogEntry} {st' : RunState}
    {rest : List LogEntry}
    (h : stepEntry f g st e = some st')
    (hinv : StateInv (e :: rest) st)
    (hfb : ∀ x ∈ e :: rest, f ≤ x.timestamp)
    (hpw : ∀ x ∈ rest, e.timestamp ≤ x.timestamp) :
    StateInv rest st' := by
  intro i s hs
  by_cases hi : i = e.ign
  · subst hi
    obtain ⟨s', hs', hcase⟩ := stepEntry_get_self h
    rw [hs'] at hs
    injection hs with hs
    subst hs
    have hbase : SessionInv (e :: rest) ((dictGet st.activity e.ign).getD initialSession) := by
      cases hb : dictGet st.activity e.ign with
      | none => simpa [hb] using sessionInv_initial (e :: rest)
      | some s0 => simpa [hb] using hinv e.ign s0 hb
    rcases hcase with ⟨-, (rfl | rfl)⟩ | ⟨-, rfl⟩
    · exact sessionInv_mono_cons hbase
    · exact sessionInv_join hbase hpw
    · exact sessionInv_leave hbase (fun x hx => hfb x (List.mem_cons_of_mem _ hx))
  · rw [stepEntry_get_ne h i hi] at hs
    exact sessionInv_mono_cons (hinv i s hs)

theorem stateInv_processLogs {f g : Instant} :
    ∀ {logs : List LogEntry} {st st' : RunState},
      processLogs f g st logs = some st' →
      StateInv logs st →
      (∀ x ∈ logs, f ≤ x.timestamp) →
      logs.Pairwise (fun a b => a.timestamp ≤ b.timestamp) →
      StateInv [] st' := by
  intro logs
  induction logs with
  | nil =>
    intro st st' h hinv _ _
    simp only [processLogs, Option.some.injEq] at h
    subst h
    exact hinv
  | cons e rest ih =>
    intro st st' h hinv hfb hpw
    simp only [processLogs] at h
    cases hse : stepEntry f g st e with
    | none => rw [hse] at h; exact absurd h (by simp)
    | some st1 =>
      rw [hse] at h
      rw [List.pairwise_cons] at hpw
      exact ih h (stateInv_step hse hinv hfb hpw.1)
        (fun x hx => hfb x (List.mem_cons_of_mem _ hx)) hpw.2

/-! ### Extraction and membership lemmas for the classifier output -/

theorem mem_activeListOf {gld : List (String × List String)} {st : RunState} {i : String} :
    i ∈ activeListOf gld st ↔
      (i ∈ get_active_igns st.activity ∧ i ∈ guildListOf gld) := by
  simp [activeListOf, activeSortedOf, List.mem_filter, mem_sortByLastJoinDesc]

theorem mem_graceListOf {gld : List (String × List String)} {st : RunState} {i : String} :
    i ∈ graceListOf gld st ↔
      (i ∈ st.igns_in_grace_period ∧ i ∈ guildListOf gld ∧
       i ∉ activeListOf gld st) := by
  simp only [graceListOf, List.mem_filter, mem_sortByLastJoinDesc, decide_eq_true_eq]
  tauto

theorem mem_inactiveListOf {gld : List (String × List String)} {st : RunState} {i : String} :
    i ∈ inactiveListOf gld st ↔
      (((i ∈ dictKeys st.activity ∧ i ∉ get_active_igns st.activity) ∨
        (i ∈ guildListOf gld ∧ i ∉ dictKeys st.activity)) ∧
       i ∈ guildListOf gld ∧ i ∉ graceListOf gld st) := by
  simp only [inactiveListOf, inactiveSortedOf, activeSortedOf, List.mem_filter,
    List.mem_append, mem_sortByLastJoinDesc, mem_sortAlpha, decide_eq_true_eq]
  tauto

theorem assembleOutput_ok_spec {gld : List (String × List String)}
    {sb : List (String × Int)} {nearest today : Instant} {st : RunState} {out : CalcOutput}
    (h : assembleOutput gld sb nearest today st = .ok out) :
    ∃ rawPromotion boiledPromotion,
      get_raw_to_boiled_promotion_igns gld st.activity st.known_guild_join_dates
          (activeListOf gld st) nearest today = some rawPromotion ∧
      get_boiled_to_scrambled_promotion_igns gld st.activity st.known_guild_join_dates sb
          (activeListOf gld st) nearest today = some boiledPromotion ∧
      out = { active_igns := activeListOf gld st
              grace_period_igns := graceListOf gld st
              inactive_igns := inactiveListOf gld st
              raw_to_boiled_promotion_igns := rawPromotion
              boiled_to_scrambled_promotion_igns := boiledPromotion
              raw_unknown_join_igns := unknownJoinOf st rawPromotion
              raw_clear_igns := clearOf rawPromotion (unknownJoinOf st rawPromotion)
              boiled_unknown_join_igns := unknownJoinOf st boiledPromotion
              boiled_clear_igns := clearOf boiledPromotion (unknownJoinOf st boiledPromotion) } := by
  unfold assembleOutput at h
  cases hraw : get_raw_to_boiled_promotion_igns gld st.activity st.known_guild_join_dates
      (activeListOf gld st) nearest today with
  | none => rw [hraw] at h; exact absurd h (by simp)
  | some rawPromotion =>
    rw [hraw] at h
    cases hboiled : get_boiled_to_scrambled_promotion_igns gld st.activity
        st.known_guild_join_dates sb (activeListOf gld st) nearest today with
    | none => rw [hboiled] at h; exact absurd h (by simp)
    | some boiledPromotion =>
      rw [hboiled] at h
      simp only [Except.ok.injEq] at h
      exact ⟨rawPromotion, boiledPromotion, rfl, rfl, h.symm⟩

theorem calculate_activity_ok {logs : List LogEntry} {gld : List (String × List String)}
    {sb : List (String × Int)} {today : Instant} {a0 : List (String × SessionState)}
    {out : CalcOutput} {st : RunState}
    (h : calculate_activity logs (some gld) (some sb) today a0 = .ok (out, st)) :
    ∃ first rest, logs = first :: rest ∧
      processLogs first.timestamp (first.timestamp - 60 * MINS_FOR_ACTIVITY_RANGE)
        (startState a0) logs = some st ∧
      assembleOutput gld sb ((logs.getLast?).getD first).timestamp today st = .ok out := by
  cases logs with
  | nil => exact absurd h (by simp [calculate_activity])
  | cons first rest =>
    simp only [calculate_activity] at h
    cases hp : processLogs first.timestamp (first.timestamp - 60 * MINS_FOR_ACTIVITY_RANGE)
        (startState a0) (first :: rest) with
    | none => rw [hp] at h; simp at h
    | some st1 =>
      rw [hp] at h
      dsimp only at h
      cases ha : assembleOutput gld sb (((first :: rest).getLast?).getD first).timestamp
          today st1 with
      | error m => rw [ha] at h; simp at h
      | ok out1 =>
        rw [ha] at h
        simp only [Except.ok.injEq, Prod.mk.injEq] at h
        obtain ⟨rfl, rfl⟩ := h
        exact ⟨first, rest, rfl, hp, ha⟩

theorem mem_unknownJoinOf {st : RunState} {promo : List String} {i : String} :
    i ∈ unknownJoinOf st promo ↔
      (i ∈ promo ∧ dictGet st.known_guild_join_dates i = none) := by
  simp [unknownJoinOf, List.mem_filter, Option.isNone_iff_eq_none]

theorem mem_clearOf {promo unknown : List String} {i : String} :
    i ∈ clearOf promo unknown ↔ (i ∈ promo ∧ i ∉ unknown) := by
  simp [clearOf, List.mem_filter]

/-- The latest timestamp in the log (`self.nearest_log_time = logs[-1]`). -/
def nearestTimeOf (logs : List LogEntry) : Instant :=
  ((logs.getLast?).map (fun e => e.timestamp)).getD 0

/-! ### Claim theorems -/

/-- C3: for every log, roster and level-directory input on which
`calculate_activity` succeeds from a fresh tracker, the Active,
GracePeriod and Inactive outputs are pairwise disjoint, their union is
exactly the set of roster identities, roster identities with zero log
entries land in Inactive, and identities absent from the roster appear
in no tier (the union equivalence forces this). -/
theorem c3_partition (logs : List LogEntry) (gld : List (String × List String))
    (sb : List (String × Int)) (today : Instant) (out : CalcOutput) (st : RunState)
    (h : calculate_activity logs (some gld) (some sb) today [] = .ok (out, st)) :
    (∀ i, ¬ (i ∈ out.active_igns ∧ i ∈ out.grace_period_igns)) ∧
    (∀ i, ¬ (i ∈ out.active_igns ∧ i ∈ out.inactive_igns)) ∧
    (∀ i, ¬ (i ∈ out.grace_period_igns ∧ i ∈ out.inactive_igns)) ∧
    (∀ i, i ∈ guildListOf gld ↔
      (i ∈ out.active_igns ∨ i ∈ out.grace_period_igns ∨ i ∈ out.inactive_igns)) ∧
    (∀ i, i ∈ guildListOf gld → (∀ e ∈ logs, e.ign ≠ i) → i ∈ out.inactive_igns) := by
  obtain ⟨first, rest, hlogs, hp, ha⟩ := calculate_activity_ok h
  obtain ⟨rawP, boiledP, -, -, rfl⟩ := assembleOutput_ok_spec ha
  dsimp only
  refine ⟨?_, ?_, ?_, ?_, ?_⟩
  · rintro i ⟨hA, hG⟩
    exact (mem_graceListOf.mp hG).2.2 hA
  · rintro i ⟨hA, hI⟩
    obtain ⟨hact, -⟩ := mem_activeListOf.mp hA
    have hk : i ∈ dictKeys st.activity := ((mem_get_active_igns st.activity i).mp hact).1
    rcases (mem_inactiveListOf.mp hI).1 with ⟨-, hna⟩ | ⟨-, hnk⟩
    · exact hna hact
    · exact hnk hk
  · rintro i ⟨hG, hI⟩
    exact (mem_inactiveListOf.mp hI).2.2 hG
  · intro i
    constructor
    · intro hi
      by_cases hA : i ∈ activeListOf gld st
      · exact Or.inl hA
      by_cases hG : i ∈ graceListOf gld st
      · exact Or.inr (Or.inl hG)
      · refine Or.inr (Or.inr (mem_inactiveListOf.mpr ⟨?_, hi, hG⟩))
        by_cases hk : i ∈ dictKeys st.activity
        · refine Or.inl ⟨hk, ?_⟩
          intro hact
          exact hA (mem_activeListOf.mpr ⟨hact, hi⟩)
        · exact Or.inr ⟨hi, hk⟩
    · rintro (hA | hG | hI)
      · exact (mem_activeListOf.mp hA).2
      · exact (mem_graceListOf.mp hG).2.1
      · exact (mem_inactiveListOf.mp hI).2.1
  · intro i hi hnone
    have hkeys : ¬ (dictGet st.activity i).isSome = true := by
      rw [processLogs_isSome hp i]
      rintro (hmem | ⟨e, he, heq⟩)
      · simp [startState, dictGet] at hmem
      · exact hnone e he heq
    have hnkeys : i ∉ dictKeys st.activity := fun hk => hkeys ((mem_dictKeys_iff _ _).mp hk)
    have hngrace : i ∉ st.igns_in_grace_period := by
      rw [processLogs_grace_mem hp i]
      rintro (hmem | ⟨e, he, heq, -⟩)
      · simp [startState] at hmem
      · exact hnone e he heq
    refine mem_inactiveListOf.mpr ⟨Or.inr ⟨hi, hnkeys⟩, hi, ?_⟩
    intro hG
    exact hngrace (mem_graceListOf.mp hG).1

/-- C4: after a single `calculate_activity` pass over a chronologically
ordered (timestamps nondecreasing, oldest first) log from a fresh
tracker, every identity's `long_session_starts` is strictly increasing
(hence has no two identical consecutive entries). -/
theorem c4_strictly_increasing (logs : List LogEntry) (gld : List (String × List String))
    (sb : List (String × Int)) (today : Instant) (out : CalcOutput) (st : RunState)
    (ign : String) (s : SessionState)
    (hsort : logs.Pairwise (fun a b => a.timestamp ≤ b.timestamp))
    (h : calculate_activity logs (some gld) (some sb) today [] = .ok (out, st))
    (hs : dictGet st.activity ign = some s) :
    s.long_session_starts.Chain' (· < ·) := by
  obtain ⟨first, rest, rfl, hp, -⟩ := calculate_activity_ok h
  have hfb : ∀ x ∈ first :: rest, first.timestamp ≤ x.timestamp := by
    intro x hx
    rcases List.mem_cons.mp hx with rfl | hx
    · exact le_refl _
    · exact (List.pairwise_cons.mp hsort).1 x hx
  have hinv0 : StateInv (first :: rest) (startState []) := by
    intro i s' hs'
    simp [startState, dictGet] at hs'
  exact (stateInv_processLogs hp hinv0 hfb hsort ign s hs).1

/-- C5: a roster identity is in the Active output exactly when its
recorded `long_session_starts` has length at least
`NUM_LONG_JOINS_FOR_ACTIVITY` (= 2); identities never seen in the log
count as having an empty history. -/
theorem c5_active_iff (logs : List LogEntry) (gld : List (String × List String))
    (sb : List (String × Int)) (today : Instant) (out : CalcOutput) (st : RunState)
    (i : String)
    (h : calculate_activity logs (some gld) (some sb) today [] = .ok (out, st))
    (hi : i ∈ guildListOf gld) :
    (i ∈ out.active_igns ↔
      NUM_LONG_JOINS_FOR_ACTIVITY ≤
        ((dictGet st.activity i).getD initialSession).long_session_starts.length) := by
  obtain ⟨first, rest, hlogs, hp, ha⟩ := calculate_activity_ok h
  obtain ⟨rawP, boiledP, -, -, rfl⟩ := assembleOutput_ok_spec ha
  dsimp only
  rw [mem_activeListOf, mem_get_active_igns]
  constructor
  · rintro ⟨⟨-, hlen⟩, -⟩
    exact hlen
  · intro hlen
    refine ⟨⟨?_, hlen⟩, hi⟩
    rw [mem_dictKeys_iff]
    cases hk : dictGet st.activity i with
    | none =>
      rw [hk] at hlen
      simp [initialSession, NUM_LONG_JOINS_FOR_ACTIVITY] at hlen
    | some v => simp

/-- C6 (amended): on a guild-join entry for identity `i` at time `t`,
`GuildJoinDates[i]` is set to `t`, and `i` is marked a grace-period
candidate exactly when `t` is at or after the run's
`activity_grace_period_end` (in `calculate_activity` this is the
EARLIEST log timestamp minus 60 days, a bound every log timestamp
satisfies) or was already marked. -/
theorem c6_amended (f g : Instant) (st : RunState) (log : LogEntry) (st' : RunState)
    (hj : log.is_join = true) (hgj : log.is_guild_join = true)
    (h : stepEntry f g st log = some st') :
    dictGet st'.known_guild_join_dates log.ign = some log.timestamp ∧
    (log.ign ∈ st'.igns_in_grace_period ↔
      (g ≤ log.timestamp ∨ log.ign ∈ st.igns_in_grace_period)) := by
  constructor
  · rw [stepEntry_known_eq hj hgj h]
    exact dictGet_dictSet_self _ _ _
  · rw [stepEntry_grace_eq h]
    by_cases hg : g ≤ log.timestamp
    · rw [if_pos ⟨hj, hgj, hg⟩, mem_pySetAdd]
      simp [hg]
    · rw [if_neg (fun hc => hg hc.2.2)]
      simp [hg]

/-- C7 (amended): one `calculate_activity` invocation is a deterministic
function of the log, the two directory files, the wall clock, and the
`self.activity` contents it starts from; two invocations from equal
starting states on equal snapshots give equal results. -/
theorem c7_amended (logs : List LogEntry) (gfile : Option (List (String × List String)))
    (sfile : Option (List (String × Int))) (today : Instant)
    (activity0 : List (String × SessionState)) (p q : CalcOutput × RunState)
    (h1 : calculate_activity logs gfile sfile today activity0 = .ok p)
    (h2 : calculate_activity logs gfile sfile today activity0 = .ok q) :
    p = q := by
  rw [h1] at h2
  simpa using h2

/-- C8: a source-rank ("Raw Egg") identity that is Active and passes the
long-session-recency test but has no known guild-join date is still in
the promotion candidate list, appears in the unknown-date sub-list that
is flagged for manual review, is excluded from the printed clear list,
and the two printed lists are disjoint. -/
theorem c8_unknown_join_promotion (logs : List LogEntry)
    (gld : List (String × List String)) (sb : List (String × Int)) (today : Instant)
    (out : CalcOutput) (st : RunState) (i : String)
    (h : calculate_activity logs (some gld) (some sb) today [] = .ok (out, st))
    (hrank : i ∈ (dictGet gld "Raw Egg").getD [])
    (hact : i ∈ out.active_igns)
    (hrec : (lastN NUM_LONG_JOINS_FOR_RAW_PROMOTION
        ((dictGet st.activity i).getD initialSession).long_session_starts).countP
        (fun t => decide (t < nearestTimeOf logs -
          60 * MINS_FOR_RAW_PROMOTION_ACTIVITY_RANGE)) = 0)
    (hunk : dictGet st.known_guild_join_dates i = none) :
    i ∈ out.raw_to_boiled_promotion_igns ∧
    i ∈ out.raw_unknown_join_igns ∧
    i ∉ out.raw_clear_igns ∧
    ∀ x ∈ out.raw_unknown_join_igns, x ∉ out.raw_clear_igns := by
  obtain ⟨first, rest, hlogs, hp, ha⟩ := calculate_activity_ok h
  obtain ⟨rawP, boiledP, hraw, -, rfl⟩ := assembleOutput_ok_spec ha
  dsimp only at hact ⊢
  have hnearest : ((logs.getLast?).getD first).timestamp = nearestTimeOf logs := by
    subst hlogs
    cases hlast : (first :: rest).getLast? with
    | none => simp at hlast
    | some e => simp [nearestTimeOf, hlast]
  rw [hnearest] at hraw
  unfold get_raw_to_boiled_promotion_igns at hraw
  cases hrk : dictGet gld "Raw Egg" with
  | none => rw [hrk] at hraw; exact absurd hraw (by simp)
  | some raw_igns =>
    rw [hrk] at hraw
    simp only [Option.some.injEq] at hraw
    rw [hrk, Option.getD_some] at hrank
    have hmem : i ∈ rawP := by
      rw [← hraw, List.mem_filter]
      refine ⟨hrank, ?_⟩
      rw [Bool.and_eq_true, Bool.and_eq_true]
      refine ⟨⟨by simpa using hact, ?_⟩, ?_⟩
      · rw [Nat.beq_eq_true_eq]
        exact hrec
      · rw [hunk]
    refine ⟨hmem, mem_unknownJoinOf.mpr ⟨hmem, hunk⟩, ?_, ?_⟩
    · intro hc
      exact (mem_clearOf.mp hc).2 (mem_unknownJoinOf.mpr ⟨hmem, hunk⟩)
    · intro x hx hc
      exact (mem_clearOf.mp hc).2 hx

/-- C9: if the roster file is absent, the run aborts with the
file-identifying error before producing any classification or promotion
output (the result is the bare error, carrying no partial output). -/
theorem c9_missing_roster_fatal (logs : List LogEntry)
    (sb_level_file : Option (List (String × Int))) (today : Instant)
    (activity0 : List (String × SessionState)) :
    calculate_activity logs none sb_level_file today activity0 =
      .error rosterMissingError := rfl

/-- C10: on the empty log `calculate_activity` fails at the
`logs[0]` / `logs[-1]` indexing with an `IndexError` and produces no
classification at all. -/
theorem c10_empty_log_error (gld : List (String × List String))
    (sb : List (String × Int)) (today : Instant)
    (activity0 : List (String × SessionState)) :
    calculate_activity [] (some gld) (some sb) today activity0 =
      .error emptyLogError := rfl

/-! ### Concrete inputs used by the evaluation theorems and witnesses -/

def rosterW : List (String × List String) :=
  [("Raw Egg", ["A"]), ("Hard Boiled Egg", [])]

def rosterAB : List (String × List String) :=
  [("Raw Egg", ["A", "B"]), ("Hard Boiled Egg", [])]

/-- Reconnect scenario of the spec: join at `T0 = 0`, leave at
`T0+10min`, join at `T0+11min`, leave at `T0+50min` (seconds). -/
def c1Logs : List LogEntry :=
  [⟨0, "A", true, false⟩, ⟨600, "A", false, false⟩,
   ⟨660, "A", true, false⟩, ⟨3000, "A", false, false⟩]

/-- A session of one day plus five minutes: join at `0`, leave at
`86700` seconds. -/
def c2Logs : List LogEntry :=
  [⟨0, "A", true, false⟩, ⟨86700, "A", false, false⟩]

def c3Logs : List LogEntry :=
  [⟨0, "A", true, false⟩, ⟨2000, "A", false, false⟩]

def c3Out : CalcOutput := ⟨[], [], ["A", "B"], [], [], [], [], [], []⟩

def c3State : RunState := ⟨[("A", ⟨some 0, some 2000, [0]⟩)], [], []⟩

/-- Guild join by `A` at time `0`, then activity by `B` 100 days later. -/
def c6Logs : List LogEntry :=
  [⟨0, "A", true, true⟩, ⟨8640000, "B", true, false⟩]

def c6StepState : RunState := ⟨[("A", ⟨some 0, none, []⟩)], [("A", 0)], ["A"]⟩

/-- Leave at `0`, join at `5min`, leave at `45min` (one long session),
trailing join at `50min`. -/
def c7Logs : List LogEntry :=
  [⟨0, "A", false, false⟩, ⟨300, "A", true, false⟩,
   ⟨2700, "A", false, false⟩, ⟨3000, "A", true, false⟩]

def c7FirstOut : CalcOutput := ⟨[], [], ["A"], [], [], [], [], [], []⟩

def c7FirstState : RunState := ⟨[("A", ⟨some 3000, some 2700, [300]⟩)], [], []⟩

/-- Two long sessions for `A` (starts `0` and `10000`), no guild-join
entry anywhere. -/
def c8Logs : List LogEntry :=
  [⟨0, "A", true, false⟩, ⟨2000, "A", false, false⟩,
   ⟨10000, "A", true, false⟩, ⟨12000, "A", false, false⟩]

def c8Out : CalcOutput := ⟨["A"], [], [], ["A"], [], ["A"], [], [], []⟩

def c8State : RunState := ⟨[("A", ⟨some 10000, some 12000, [0, 10000]⟩)], [], []⟩

/-! ### Evaluation theorems for the code-bug claims -/

/-- C1: on the spec's reconnect scenario the code records exactly one
long session, but its start is `T0+11min` (660 s), not `T0`: the join at
`T0+11min` resets `last_join` (the third disjunct of the join condition,
`is_time_within_mins(last_join, t, 24h)`, holds — `timedelta.seconds`
is always below 86400 — although the source comment describes it as
"it's been a long while since the last recorded join"). -/
theorem c1_code_result :
    (calculate_activity c1Logs (some rosterW) (some []) 0 []).map
      (fun p => (dictGet p.2.activity "A").map (fun s => s.long_session_starts)) =
      .ok (some [660]) := by rfl

/-- C2: a join-to-leave span of one day plus five minutes (≥ 30 min of
total elapsed time) is NOT recorded as a long session, because
`is_time_within_mins` compares only the sub-day remainder
`timedelta.seconds` (300 s < 1800 s), so the span counts as "within 30
minutes". -/
theorem c2_code_result :
    (calculate_activity c2Logs (some rosterW) (some []) 0 []).map
      (fun p => (dictGet p.2.activity "A").map (fun s => s.long_session_starts)) =
      .ok (some []) ∧
    60 * MINS_FOR_LONG_JOIN ≤ (86700 : Instant) - 0 ∧
    is_time_within_mins 0 86700 MINS_FOR_LONG_JOIN = true := by
  refine ⟨by rfl, by decide, by rfl⟩

/-! ### Counterexamples for the corrected claims -/

/-- C6 counterexample: `A`'s guild join at time `0` is more than 60 days
before the latest log timestamp (100 days later), yet `A` is marked a
grace-period candidate and reported in the GracePeriod tier — the code
measures the window from the EARLIEST log timestamp, not the latest. -/
theorem c6_counterexample :
    (calculate_activity c6Logs (some rosterAB) (some []) 0 []).map
      (fun p => p.2.igns_in_grace_period) = .ok ["A"] ∧
    (calculate_activity c6Logs (some rosterAB) (some []) 0 []).map
      (fun p => p.1.grace_period_igns) = .ok ["A"] ∧
    ¬ (nearestTimeOf c6Logs - 0 ≤ 60 * MINS_FOR_ACTIVITY_RANGE) := by
  refine ⟨by rfl, by rfl, by decide⟩

/-- C7 counterexample: invoking `calculate_activity` a second time on
the same tracker instance (i.e. starting from the `self.activity` the
first call left behind) classifies `A` as Active although the first call
did not — the per-identity state is never reset between calls. -/
theorem c7_counterexample :
    (calculate_activity c7Logs (some rosterW) (some []) 0 []).map
      (fun p => p.1.active_igns) = .ok [] ∧
    ((calculate_activity c7Logs (some rosterW) (some []) 0 []).bind
        (fun p => calculate_activity c7Logs (some rosterW) (some []) 0 p.2.activity)).map
      (fun p => p.1.active_igns) = .ok ["A"] := by
  refine ⟨by rfl, by rfl⟩

/-! ### Witnesses -/

theorem c3_partition_witness : "B" ∈ c3Out.inactive_igns := by
  have h := c3_partition c3Logs rosterAB [] 0 c3Out c3State (by rfl)
  exact h.2.2.2.2 "B" (by decide) (by decide)

theorem c4_witness :
    ((⟨some 10000, some 12000, [0, 10000]⟩ : SessionState)).long_session_starts.Chain'
      (· < ·) :=
  c4_strictly_increasing c8Logs rosterW [] 0 c8Out c8State "A"
    ⟨some 10000, some 12000, [0, 10000]⟩ (by decide) (by rfl) (by rfl)

theorem c5_witness :
    ("A" ∈ c8Out.active_igns ↔
      NUM_LONG_JOINS_FOR_ACTIVITY ≤
        ((dictGet c8State.activity "A").getD initialSession).long_session_starts.length) :=
  c5_active_iff c8Logs rosterW [] 0 c8Out c8State "A" (by rfl) (by decide)

theorem c6_amended_witness :
    dictGet c6StepState.known_guild_join_dates "A" = some 0 ∧
    ("A" ∈ c6StepState.igns_in_grace_period ↔
      ((0 : Instant) - 60 * MINS_FOR_ACTIVITY_RANGE ≤ 0 ∨
        "A" ∈ (startState []).igns_in_grace_period)) :=
  c6_amended 0 (0 - 60 * MINS_FOR_ACTIVITY_RANGE) (startState [])
    ⟨0, "A", true, true⟩ c6StepState rfl rfl (by rfl)

theorem c7_amended_witness :
    ((c7FirstOut, c7FirstState) : CalcOutput × RunState) = (c7FirstOut, c7FirstState) :=
  c7_amended c7Logs (some rosterW) (some []) 0 [] (c7FirstOut, c7FirstState)
    (c7FirstOut, c7FirstState) (by rfl) (by rfl)

theorem c8_witness :
    "A" ∈ c8Out.raw_to_boiled_promotion_igns ∧
    "A" ∈ c8Out.raw_unknown_join_igns ∧
    "A" ∉ c8Out.raw_clear_igns ∧
    ∀ x ∈ c8Out.raw_unknown_join_igns, x ∉ c8Out.raw_clear_igns :=
  c8_unknown_join_promotion c8Logs rosterW [] 1000000 c8Out c8State "A"
    (by rfl) (by decide) (by decide) (by decide) (by rfl)

end ActivityTrackerModel
